import Mathlib

/-
Verification of the evaluation kernel in src/savage_core/src/evaluate.rs.

The evaluator rewrites an expression tree one step at a time until a fixed
point is reached.  Code shared with the evaluator but living outside the
given sources (the expression data type, the type classifier, the
representation-hint merge) and the external exact-arithmetic primitives are
modelled from the specification, as marked on each definition.

Rust's unfueled recursion (variable chasing inside one step, and the outer
fixed-point loop) is made total with explicit fuel; `none` stands for
running out of fuel (divergence within the allotted budget), `some` for the
Rust function returning.
-/

unseal Rat.mul Rat.add Rat.sub Rat.inv

namespace Savage

/-- Modelled from the spec: exact complex numbers over exact rationals, the
value payload of a `Number`-classified expression (external arithmetic
collaborator, spec sections 3 and 6). -/
structure CplxQ where
  re : Rat
  im : Rat
deriving DecidableEq

/-- Modelled from the spec: the zero complex value, used by the exact zero
tests of the evaluator. -/
def czero : CplxQ := ⟨0, 0⟩

/-- Modelled from the spec: exact complex addition. -/
def CplxQ.add (a b : CplxQ) : CplxQ := ⟨a.re + b.re, a.im + b.im⟩

/-- Modelled from the spec: exact complex subtraction. -/
def CplxQ.sub (a b : CplxQ) : CplxQ := ⟨a.re - b.re, a.im - b.im⟩

/-- Modelled from the spec: exact complex negation. -/
def CplxQ.neg (a : CplxQ) : CplxQ := ⟨-a.re, -a.im⟩

/-- Modelled from the spec: exact complex multiplication. -/
def CplxQ.mul (a b : CplxQ) : CplxQ :=
  ⟨a.re * b.re - a.im * b.im, a.re * b.im + a.im * b.re⟩

/-- Modelled from the spec: exact complex division (callers guard against a
zero divisor). -/
def CplxQ.div (a b : CplxQ) : CplxQ :=
  let d := b.re * b.re + b.im * b.im
  ⟨(a.re * b.re + a.im * b.im) / d, (a.im * b.re - a.re * b.im) / d⟩

/-- Truncation of an exact rational toward zero (the reduced denominator is
positive, so truncating integer division of numerator by denominator is
truncation of the value toward zero). -/
def ratTrunc (q : Rat) : Int := q.num.tdiv q.den

/-- Modelled from the spec: the truncated-division remainder
`a - trunc(a/b) * b`, componentwise truncation of the exact quotient toward
zero (spec section 4.3). -/
def CplxQ.rem (a b : CplxQ) : CplxQ :=
  let q := a.div b
  a.sub (b.mul ⟨(ratTrunc q.re : Int), (ratTrunc q.im : Int)⟩)

/-- Modelled from the spec: exact nonnegative integer power by repeated
multiplication. -/
def CplxQ.npow (a : CplxQ) : Nat → CplxQ
  | 0 => ⟨1, 0⟩
  | n + 1 => (a.npow n).mul a

/-- Modelled from the spec: exact complex reciprocal (callers guard against
zero). -/
def CplxQ.inv (a : CplxQ) : CplxQ := CplxQ.div ⟨1, 0⟩ a

/-- Modelled from the spec: exact integer power; a negative exponent
produces an exact reciprocal power (spec section 4.3). -/
def CplxQ.powi (a : CplxQ) (n : Int) : CplxQ :=
  if n < 0 then (a.npow (-n).toNat).inv else a.npow n.toNat

/-- Modelled from the spec: exact conversion to a machine-width (32-bit)
signed integer when possible (spec section 6: "exact conversion to a
machine integer when possible"); `none` when the value is not a real
integer in range. -/
def CplxQ.toI32 (z : CplxQ) : Option Int :=
  if z.im = 0 ∧ z.re.den = 1 ∧ -2147483648 ≤ z.re.num ∧ z.re.num ≤ 2147483647 then
    some z.re.num
  else
    none

/-- Modelled from the spec: the display hint carried by rational and
complex literals, Fraction or Decimal (spec section 3). -/
inductive RationalRepresentation where
  | Fraction
  | Decimal
deriving DecidableEq

/-- Modelled from the spec: hint merge; two identical hints are preserved,
differing hints yield Decimal (spec section 3, merge invariant). -/
def RationalRepresentation.merge :
    RationalRepresentation → RationalRepresentation → RationalRepresentation
  | .Fraction, .Fraction => .Fraction
  | _, _ => .Decimal

mutual
/-- Modelled from the spec: the expression tree (spec section 3).  Lists of
sub-expressions are represented by the mutually defined cons-list types. -/
inductive Expression where
  | Variable : String → Expression
  | Function : String → ExpressionList → Expression
  | Integer : Int → Expression
  | Rational : Rat → RationalRepresentation → Expression
  | Complex : CplxQ → RationalRepresentation → Expression
  | Vector : ExpressionList → Expression
  | Matrix : ExpressionListList → Expression
  | Boolean : Bool → Expression
  | Negation : Expression → Expression
  | Not : Expression → Expression
  | Sum : Expression → Expression → Expression
  | Difference : Expression → Expression → Expression
  | Product : Expression → Expression → Expression
  | Quotient : Expression → Expression → Expression
  | Remainder : Expression → Expression → Expression
  | Power : Expression → Expression → Expression
  | Equal : Expression → Expression → Expression
  | NotEqual : Expression → Expression → Expression
  | LessThan : Expression → Expression → Expression
  | LessThanOrEqual : Expression → Expression → Expression
  | GreaterThan : Expression → Expression → Expression
  | GreaterThanOrEqual : Expression → Expression → Expression
  | And : Expression → Expression → Expression
  | Or : Expression → Expression → Expression
deriving DecidableEq

/-- Modelled from the spec: an ordered list of sub-expressions (function
arguments, vector elements). -/
inductive ExpressionList where
  | nil : ExpressionList
  | cons : Expression → ExpressionList → ExpressionList
deriving DecidableEq

/-- Modelled from the spec: the rows of a matrix of sub-expressions. -/
inductive ExpressionListList where
  | nil : ExpressionListList
  | cons : ExpressionList → ExpressionListList → ExpressionListList
deriving DecidableEq
end

/-- The error type of evaluate.rs (lines 10 to 37): each variant carries the
offending expression and operand(s). -/
inductive Error where
  | InvalidOperand : Expression → Expression → Error
  | IncompatibleOperands : Expression → Expression → Expression → Error
  | DivisionByZero : Expression → Expression → Expression → Error
  | ZeroToThePowerOfZero : Expression → Expression → Expression → Error
deriving DecidableEq

/-- Modelled from the spec: the coarse type tag driving dispatch (spec
section 4.1). -/
inductive Typ where
  | Number : CplxQ → RationalRepresentation → Typ
  | Boolean : Option Bool → Typ
  | Matrix : ExpressionListList → Typ
  | Arithmetic : Typ
deriving DecidableEq

/-- Modelled from the spec: the pure, total type classifier (spec section
4.1).  Boolean literals classify as concrete booleans; boolean-valued node
kinds that are not literals classify as `Boolean none`; numbers carry their
exact complex value and hint (integer literals are Fraction-hinted);
matrices carry their payload; everything else is Arithmetic. -/
def typ : Expression → Typ
  | .Variable _ => .Arithmetic
  | .Function _ _ => .Arithmetic
  | .Integer n => .Number ⟨(n : Int), 0⟩ .Fraction
  | .Rational q rep => .Number ⟨q, 0⟩ rep
  | .Complex z rep => .Number z rep
  | .Vector _ => .Arithmetic
  | .Matrix m => .Matrix m
  | .Boolean b => .Boolean (some b)
  | .Negation _ => .Arithmetic
  | .Not _ => .Boolean none
  | .Sum _ _ => .Arithmetic
  | .Difference _ _ => .Arithmetic
  | .Product _ _ => .Arithmetic
  | .Quotient _ _ => .Arithmetic
  | .Remainder _ _ => .Arithmetic
  | .Power _ _ => .Arithmetic
  | .Equal _ _ => .Boolean none
  | .NotEqual _ _ => .Boolean none
  | .LessThan _ _ => .Boolean none
  | .LessThanOrEqual _ _ => .Boolean none
  | .GreaterThan _ _ => .Boolean none
  | .GreaterThanOrEqual _ _ => .Boolean none
  | .And _ _ => .Boolean none
  | .Or _ _ => .Boolean none

/-- Modelled from the spec: elementwise negation of one matrix row
(external matrix arithmetic collaborator, spec section 6). -/
def matNegRow : ExpressionList → ExpressionList
  | .nil => .nil
  | .cons e rest => .cons (.Negation e) (matNegRow rest)

/-- Modelled from the spec: elementwise negation of a matrix. -/
def matNeg : ExpressionListList → ExpressionListList
  | .nil => .nil
  | .cons row rest => .cons (matNegRow row) (matNeg rest)

/-- The two unary operator node kinds of evaluate.rs. -/
inductive UnOp where
  | neg
  | not
deriving DecidableEq

/-- The fourteen binary operator node kinds of evaluate.rs. -/
inductive BinOp where
  | sum
  | diff
  | prod
  | quot
  | rem
  | pow
  | eq
  | ne
  | lt
  | le
  | gt
  | ge
  | and
  | or
deriving DecidableEq, BEq

/-- Rebuild the unary expression node for an operator kind. -/
def mkUn : UnOp → Expression → Expression
  | .neg, a => .Negation a
  | .not, a => .Not a

/-- Rebuild the binary expression node for an operator kind. -/
def mkBin : BinOp → Expression → Expression → Expression
  | .sum, a, b => .Sum a b
  | .diff, a, b => .Difference a b
  | .prod, a, b => .Product a b
  | .quot, a, b => .Quotient a b
  | .rem, a, b => .Remainder a b
  | .pow, a, b => .Power a b
  | .eq, a, b => .Equal a b
  | .ne, a, b => .NotEqual a b
  | .lt, a, b => .LessThan a b
  | .le, a, b => .LessThanOrEqual a b
  | .gt, a, b => .GreaterThan a b
  | .ge, a, b => .GreaterThanOrEqual a b
  | .and, a, b => .And a b
  | .or, a, b => .Or a b

/-- Arithmetic-class binary operators (evaluate.rs lines 126 to 134). -/
def BinOp.isArithOp : BinOp → Bool
  | .sum | .diff | .prod | .quot | .rem | .pow => true
  | _ => false

/-- Ordering binary operators (evaluate.rs lines 136 to 142). -/
def BinOp.isOrderOp : BinOp → Bool
  | .lt | .le | .gt | .ge => true
  | _ => false

/-- Logical binary operators (evaluate.rs line 143). -/
def BinOp.isLogicOp : BinOp → Bool
  | .and | .or => true
  | _ => false

/-- Equality-test binary operators. -/
def BinOp.isEqOp : BinOp → Bool
  | .eq | .ne => true
  | _ => false

/-- Tag tests used by the dispatch conditions of evaluate.rs. -/
def Typ.isNumber : Typ → Bool
  | .Number _ _ => true
  | _ => false

/-- Tag test for boolean-typed operands. -/
def Typ.isBoolean : Typ → Bool
  | .Boolean _ => true
  | _ => false

/-- Tag test for matrix operands. -/
def Typ.isMatrix : Typ → Bool
  | .Matrix _ => true
  | _ => false

/-- Tag test for the residual Arithmetic tag. -/
def Typ.isArithmetic : Typ → Bool
  | .Arithmetic => true
  | _ => false

/-- The single-operand invalidity condition of the first two match arms of
evaluate_step_binary (evaluate.rs lines 124 to 169): an arithmetic operator
on a boolean, an ordering operator on a matrix or boolean, a logical
operator on a number, matrix or unresolved arithmetic operand. -/
def binInvalid (op : BinOp) (t : Typ) : Bool :=
  (op.isArithOp && t.isBoolean) ||
    (op.isOrderOp && (t.isMatrix || t.isBoolean)) ||
    (op.isLogicOp && (t.isNumber || t.isMatrix || t.isArithmetic))

/-- The incompatible-operand condition of the third match arm of
evaluate_step_binary (evaluate.rs lines 171 to 180). -/
def binIncompatible (op : BinOp) (ta tb : Typ) : Bool :=
  ((op == .sum || op == .diff || op.isEqOp) &&
      ((ta.isNumber && tb.isMatrix) || (ta.isMatrix && tb.isNumber))) ||
    (op.isEqOp &&
      (((ta.isNumber || ta.isMatrix) && tb.isBoolean) ||
        (ta.isBoolean && (tb.isNumber || tb.isMatrix))))

/-- Exact comparison of the real parts for the four ordering operators
(evaluate.rs lines 259 to 265). -/
def orderCompare (op : BinOp) (x y : Rat) : Bool :=
  match op with
  | .lt => decide (x < y)
  | .le => decide (x ≤ y)
  | .gt => decide (y < x)
  | .ge => decide (y ≤ x)
  | _ => false

/-- The Number-times-Number arm of evaluate_step_binary (evaluate.rs lines
182 to 270): exact arithmetic with hint merge, the division-by-zero and
zero-to-the-zero checks, the integer-power path with its deferred rebuild,
exact equality, and exact ordering of real parts.  The `and`/`or` case is
unreachable from the evaluator (those operators on numbers are rejected by
the earlier invalid-operand arm); it rebuilds the node, mirroring the fact
that the corresponding Rust match arm cannot be entered. -/
def numericBinary (op : BinOp) (aOrig bOrig aEval bEval : Expression)
    (za : CplxQ) (ra : RationalRepresentation)
    (zb : CplxQ) (rb : RationalRepresentation) : Except Error Expression :=
  let self := mkBin op aOrig bOrig
  let rep := ra.merge rb
  match op with
  | .sum => .ok (.Complex (za.add zb) rep)
  | .diff => .ok (.Complex (za.sub zb) rep)
  | .prod => .ok (.Complex (za.mul zb) rep)
  | .quot =>
    if zb = czero then .error (.DivisionByZero self aOrig bOrig)
    else .ok (.Complex (za.div zb) rep)
  | .rem =>
    if zb = czero then .error (.DivisionByZero self aOrig bOrig)
    else .ok (.Complex (za.rem zb) rep)
  | .pow =>
    if za = czero ∧ zb = czero then .error (.ZeroToThePowerOfZero self aOrig bOrig)
    else
      match zb.toI32 with
      | some n => .ok (.Complex (za.powi n) rep)
      | none => .ok (.Power aEval bEval)
  | .eq => .ok (.Boolean (decide (za = zb)))
  | .ne => .ok (.Boolean (decide (¬ za = zb)))
  | .lt | .le | .gt | .ge =>
    if ¬ za.im = 0 then .error (.InvalidOperand self aOrig)
    else if ¬ zb.im = 0 then .error (.InvalidOperand self bOrig)
    else .ok (.Boolean (orderCompare op za.re zb.re))
  | .and | .or => .ok (mkBin op aEval bEval)

/-- One binary evaluation step on already-stepped operands, mirroring the
match of evaluate_step_binary (evaluate.rs lines 124 to 306) arm by arm in
order: left-operand invalidity, right-operand invalidity, incompatible
pairs, number arithmetic, concrete boolean logic, and the deferred rebuild
over the stepped operands.  `aOrig`/`bOrig` are the original unstepped
operands cited by errors, `aEval`/`bEval` the stepped operands used by
rebuilds. -/
def evaluate_step_binary (op : BinOp) (aOrig bOrig aEval bEval : Expression) :
    Except Error Expression :=
  if binInvalid op (typ aEval) then
    .error (.InvalidOperand (mkBin op aOrig bOrig) aOrig)
  else if binInvalid op (typ bEval) then
    .error (.InvalidOperand (mkBin op aOrig bOrig) bOrig)
  else if binIncompatible op (typ aEval) (typ bEval) then
    .error (.IncompatibleOperands (mkBin op aOrig bOrig) aOrig bOrig)
  else
    match typ aEval, typ bEval with
    | .Number za ra, .Number zb rb => numericBinary op aOrig bOrig aEval bEval za ra zb rb
    | .Boolean (some x), .Boolean (some y) =>
      match op with
      | .eq => .ok (.Boolean (x == y))
      | .ne => .ok (.Boolean (x != y))
      | .and => .ok (.Boolean (x && y))
      | .or => .ok (.Boolean (x || y))
      | _ => .ok (mkBin op aEval bEval)
    | _, _ => .ok (mkBin op aEval bEval)

/-- One unary evaluation step on an already-stepped operand, mirroring the
match of evaluate_step_unary (evaluate.rs lines 57 to 97) in order. -/
def evaluate_step_unary (op : UnOp) (aOrig aEval : Expression) :
    Except Error Expression :=
  match op, typ aEval with
  | .neg, .Boolean _ => .error (.InvalidOperand (mkUn op aOrig) aOrig)
  | .not, .Number _ _ => .error (.InvalidOperand (mkUn op aOrig) aOrig)
  | .not, .Matrix _ => .error (.InvalidOperand (mkUn op aOrig) aOrig)
  | .not, .Arithmetic => .error (.InvalidOperand (mkUn op aOrig) aOrig)
  | .neg, .Number z rep => .ok (.Complex z.neg rep)
  | .neg, .Matrix m => .ok (.Matrix (matNeg m))
  | .neg, _ => .ok (.Negation aEval)
  | .not, .Boolean (some b) => .ok (.Boolean (!b))
  | .not, _ => .ok (.Not aEval)

/-- Sequence the stepping of a unary operand with the operator application,
mirroring the `?` propagation in evaluate_step_unary: divergence and errors
of the operand step pass through. -/
def unCombine (op : UnOp) (aOrig : Expression)
    (ra : Option (Except Error Expression)) : Option (Except Error Expression) :=
  match ra with
  | none => none
  | some (.error er) => some (.error er)
  | some (.ok aEval) => some (evaluate_step_unary op aOrig aEval)

/-- Sequence the stepping of the two binary operands (left before right)
with the operator application, mirroring the `?` propagation in
evaluate_step_binary. -/
def binCombine (op : BinOp) (aOrig bOrig : Expression)
    (ra rb : Option (Except Error Expression)) : Option (Except Error Expression) :=
  match ra with
  | none => none
  | some (.error er) => some (.error er)
  | some (.ok aEval) =>
    match rb with
    | none => none
    | some (.error er) => some (.error er)
    | some (.ok bEval) => some (evaluate_step_binary op aOrig bOrig aEval bEval)

/-- The body of evaluate_step (evaluate.rs lines 312 to 351) for one fuel
level: `varStep` performs the recursive re-step of a bound variable's
value (the only non-structural recursion of the Rust code). -/
def evaluate_step_go (ctx : List (String × Expression))
    (varStep : Expression → Option (Except Error Expression)) :
    Expression → Option (Except Error Expression)
  | .Variable ident =>
    match List.lookup ident ctx with
    | none => some (.ok (.Variable ident))
    | some x => varStep x
  | .Function f args => some (.ok (.Function f args))
  | .Integer n => some (.ok (.Integer n))
  | .Rational q rep => some (.ok (if q.den = 1 then .Integer q.num else .Rational q rep))
  | .Complex z rep => some (.ok (if z.im = 0 then .Rational z.re rep else .Complex z rep))
  | .Vector xs => some (.ok (.Vector xs))
  | .Matrix m => some (.ok (.Matrix m))
  | .Boolean b => some (.ok (.Boolean b))
  | .Negation a => unCombine .neg a (evaluate_step_go ctx varStep a)
  | .Not a => unCombine .not a (evaluate_step_go ctx varStep a)
  | .Sum a b => binCombine .sum a b (evaluate_step_go ctx varStep a) (evaluate_step_go ctx varStep b)
  | .Difference a b => binCombine .diff a b (evaluate_step_go ctx varStep a) (evaluate_step_go ctx varStep b)
  | .Product a b => binCombine .prod a b (evaluate_step_go ctx varStep a) (evaluate_step_go ctx varStep b)
  | .Quotient a b => binCombine .quot a b (evaluate_step_go ctx varStep a) (evaluate_step_go ctx varStep b)
  | .Remainder a b => binCombine .rem a b (evaluate_step_go ctx varStep a) (evaluate_step_go ctx varStep b)
  | .Power a b => binCombine .pow a b (evaluate_step_go ctx varStep a) (evaluate_step_go ctx varStep b)
  | .Equal a b => binCombine .eq a b (evaluate_step_go ctx varStep a) (evaluate_step_go ctx varStep b)
  | .NotEqual a b => binCombine .ne a b (evaluate_step_go ctx varStep a) (evaluate_step_go ctx varStep b)
  | .LessThan a b => binCombine .lt a b (evaluate_step_go ctx varStep a) (evaluate_step_go ctx varStep b)
  | .LessThanOrEqual a b => binCombine .le a b (evaluate_step_go ctx varStep a) (evaluate_step_go ctx varStep b)
  | .GreaterThan a b => binCombine .gt a b (evaluate_step_go ctx varStep a) (evaluate_step_go ctx varStep b)
  | .GreaterThanOrEqual a b => binCombine .ge a b (evaluate_step_go ctx varStep a) (evaluate_step_go ctx varStep b)
  | .And a b => binCombine .and a b (evaluate_step_go ctx varStep a) (evaluate_step_go ctx varStep b)
  | .Or a b => binCombine .or a b (evaluate_step_go ctx varStep a) (evaluate_step_go ctx varStep b)

/-- One evaluation step of an expression (evaluate_step in evaluate.rs),
with fuel bounding the depth of variable chasing: a bound variable's value
is re-stepped with one unit less; at fuel zero that re-step diverges. -/
def evaluate_step : Nat → List (String × Expression) → Expression →
    Option (Except Error Expression)
  | 0, ctx, e => evaluate_step_go ctx (fun _ => none) e
  | fuel + 1, ctx, e => evaluate_step_go ctx (evaluate_step fuel ctx) e

/-- The built-in binding of the identifier `i`: the canonical imaginary
unit, Fraction-hinted (evaluate.rs lines 359 to 362). -/
def iExpr : Expression := .Complex ⟨0, 1⟩ .Fraction

/-- Map insertion for the association-list model of the HashMap context:
the new entry replaces any existing entry with the same key. -/
def insertBinding (k : String) (v : Expression)
    (ctx : List (String × Expression)) : List (String × Expression) :=
  (k, v) :: ctx.filter (fun p => !(p.1 == k))

/-- Context construction of evaluate (evaluate.rs lines 357 to 366): start
from the built-in binding of `i`, then insert every caller-supplied
binding, caller entries overriding the built-in on key collision. -/
def buildContext (bindings : List (String × Expression)) :
    List (String × Expression) :=
  bindings.foldl (fun ctx p => insertBinding p.1 p.2 ctx) (insertBinding "i" iExpr [])

/-- The fixed-point loop of evaluate (evaluate.rs lines 368 to 378): step
the whole tree and stop when the result is structurally identical to the
input of the iteration, propagating the first error; the loop fuel bounds
the number of iterations. -/
def evalLoop : Nat → Nat → List (String × Expression) → Expression →
    Option (Except Error Expression)
  | 0, _, _, _ => none
  | lfuel + 1, sfuel, ctx, e =>
    match evaluate_step sfuel ctx e with
    | none => none
    | some (.error er) => some (.error er)
    | some (.ok e2) => if e2 = e then some (.ok e2) else evalLoop lfuel sfuel ctx e2

/-- The public entry point evaluate (evaluate.rs lines 356 to 379), with
explicit loop fuel and step fuel. -/
def evaluate (lfuel sfuel : Nat) (bindings : List (String × Expression))
    (e : Expression) : Option (Except Error Expression) :=
  evalLoop lfuel sfuel (buildContext bindings) e

/-- Demotion invariant restricted to the rewritten spine: the expression
has no Complex node with zero imaginary part and no Rational node with
denominator one, outside the element lists of Function, Vector and Matrix
nodes (which the step driver returns unchanged). -/
def goodExpr : Expression → Bool
  | .Rational q _ => !(q.den == 1)
  | .Complex z _ => !(z.im == 0)
  | .Negation a => goodExpr a
  | .Not a => goodExpr a
  | .Sum a b => goodExpr a && goodExpr b
  | .Difference a b => goodExpr a && goodExpr b
  | .Product a b => goodExpr a && goodExpr b
  | .Quotient a b => goodExpr a && goodExpr b
  | .Remainder a b => goodExpr a && goodExpr b
  | .Power a b => goodExpr a && goodExpr b
  | .Equal a b => goodExpr a && goodExpr b
  | .NotEqual a b => goodExpr a && goodExpr b
  | .LessThan a b => goodExpr a && goodExpr b
  | .LessThanOrEqual a b => goodExpr a && goodExpr b
  | .GreaterThan a b => goodExpr a && goodExpr b
  | .GreaterThanOrEqual a b => goodExpr a && goodExpr b
  | .And a b => goodExpr a && goodExpr b
  | .Or a b => goodExpr a && goodExpr b
  | _ => true

mutual
/-- Occurrence of an expression anywhere inside another expression,
including inside function argument lists, vector elements and matrix
elements. -/
inductive SubExpr : Expression → Expression → Prop where
  | refl : ∀ e, SubExpr e e
  | function : ∀ s f args, SubExprList s args → SubExpr s (.Function f args)
  | vector : ∀ s xs, SubExprList s xs → SubExpr s (.Vector xs)
  | matrix : ∀ s m, SubExprRows s m → SubExpr s (.Matrix m)
  | negation : ∀ s a, SubExpr s a → SubExpr s (.Negation a)
  | notNode : ∀ s a, SubExpr s a → SubExpr s (.Not a)
  | binLeft : ∀ s op a b, SubExpr s a → SubExpr s (mkBin op a b)
  | binRight : ∀ s op a b, SubExpr s b → SubExpr s (mkBin op a b)

/-- Occurrence of an expression inside some element of a list of
sub-expressions. -/
inductive SubExprList : Expression → ExpressionList → Prop where
  | head : ∀ s e rest, SubExpr s e → SubExprList s (.cons e rest)
  | tail : ∀ s e rest, SubExprList s rest → SubExprList s (.cons e rest)

/-- Occurrence of an expression inside some row of a matrix payload. -/
inductive SubExprRows : Expression → ExpressionListList → Prop where
  | head : ∀ s row rest, SubExprList s row → SubExprRows s (.cons row rest)
  | tail : ∀ s row rest, SubExprRows s rest → SubExprRows s (.cons row rest)
end

end Savage

deriving instance DecidableEq for Except

open Savage

example : evaluate 10 0 [] (.Remainder (.Integer 5) (.Integer 2)) =
    some (.ok (.Integer 1)) := by decide
example : evaluate 10 0 [] (.Remainder (.Integer (-5)) (.Integer 2)) =
    some (.ok (.Integer (-1))) := by decide
example : evaluate 10 0 [] (.Remainder (.Integer (-5)) (.Integer (-2))) =
    some (.ok (.Integer (-1))) := by decide
example : evaluate 10 0 []
    (.Remainder (.Rational (mkRat 3 4) .Decimal) (.Quotient (.Integer 1) (.Integer 3))) =
    some (.ok (.Rational (mkRat 1 12) .Decimal)) := by decide
example : evaluate 10 0 [] (.Power (.Integer 2) (.Integer (-3))) =
    some (.ok (.Rational (mkRat 1 8) .Fraction)) := by decide
example : evaluate 10 2 [] (.Power (.Variable "i") (.Integer 2)) =
    some (.ok (.Integer (-1))) := by decide
example : evaluate 10 0 [] (.Power (.Integer 0) (.Integer 0)) =
    some (.error (.ZeroToThePowerOfZero (.Power (.Integer 0) (.Integer 0))
      (.Integer 0) (.Integer 0))) := by decide
example : evaluate 10 0 [] (.Sum (.Boolean true) (.Integer 1)) =
    some (.error (.InvalidOperand (.Sum (.Boolean true) (.Integer 1))
      (.Boolean true))) := by decide
example : evaluate 10 0 [] (.Quotient (.Integer 1) (.Integer 0)) =
    some (.error (.DivisionByZero (.Quotient (.Integer 1) (.Integer 0))
      (.Integer 1) (.Integer 0))) := by decide
example : evaluate 10 2 [] (.Variable "i") =
    some (.ok (.Complex ⟨0, 1⟩ .Fraction)) := by decide
example : evaluate 10 0 [] (.Sum (.Quotient (.Integer 1) (.Integer 2)) (.Rational (mkRat 1 2) .Decimal)) =
    some (.ok (.Integer 1)) := by decide
example : evaluate 10 0 [] (.Product (.Rational (mkRat 1 2) .Fraction) (.Rational (mkRat 1 2) .Decimal)) =
    some (.ok (.Rational (mkRat 1 4) .Decimal)) := by decide

namespace Savage

/-- Unfolding of one evaluation step on a binary node: both operands are
stepped with the same fuel and the results are sequenced into the binary
core. -/
lemma step_mkBin (fuel : Nat) (ctx : List (String × Expression))
    (op : BinOp) (a b : Expression) :
    evaluate_step fuel ctx (mkBin op a b) =
      binCombine op a b (evaluate_step fuel ctx a) (evaluate_step fuel ctx b) := by
  cases op <;> cases fuel <;> rfl

/-- When both stepped operands classify as Numbers and the operator is not
logical, the binary core lands in the Number-times-Number arm. -/
lemma step_binary_num (op : BinOp) (a b aEval bEval : Expression)
    (za : CplxQ) (ra : RationalRepresentation)
    (zb : CplxQ) (rb : RationalRepresentation)
    (hta : typ aEval = .Number za ra) (htb : typ bEval = .Number zb rb)
    (hop : op.isLogicOp = false) :
    evaluate_step_binary op a b aEval bEval =
      numericBinary op a b aEval bEval za ra zb rb := by
  unfold evaluate_step_binary
  rw [hta, htb]
  simp [binInvalid, binIncompatible, Typ.isNumber, Typ.isBoolean, Typ.isMatrix,
    Typ.isArithmetic, hop]

/-- The Power step on two Number operands that are not both zero: integer
power when the exponent converts exactly to a 32-bit integer, deferred
rebuild otherwise. -/
lemma power_step_core (fuel : Nat) (ctx : List (String × Expression))
    (a b aEval bEval : Expression)
    (za : CplxQ) (ra : RationalRepresentation)
    (zb : CplxQ) (rb : RationalRepresentation)
    (ha : evaluate_step fuel ctx a = some (.ok aEval))
    (hb : evaluate_step fuel ctx b = some (.ok bEval))
    (hta : typ aEval = .Number za ra) (htb : typ bEval = .Number zb rb)
    (hnz : ¬ (za = czero ∧ zb = czero)) :
    evaluate_step fuel ctx (.Power a b) =
      some (match zb.toI32 with
        | some n => .ok (.Complex (za.powi n) (ra.merge rb))
        | none => .ok (.Power aEval bEval)) := by
  have hstep := step_mkBin fuel ctx .pow a b
  simp only [mkBin] at hstep
  rw [hstep, ha, hb]
  simp only [binCombine]
  rw [step_binary_num .pow a b aEval bEval za ra zb rb hta htb rfl]
  simp only [numericBinary, mkBin]
  rw [if_neg hnz]

/-- The Quotient step on two Number operands: division-by-zero error on an
exactly zero divisor, exact complex division otherwise. -/
lemma quotient_step_core (fuel : Nat) (ctx : List (String × Expression))
    (a b aEval bEval : Expression)
    (za : CplxQ) (ra : RationalRepresentation)
    (zb : CplxQ) (rb : RationalRepresentation)
    (ha : evaluate_step fuel ctx a = some (.ok aEval))
    (hb : evaluate_step fuel ctx b = some (.ok bEval))
    (hta : typ aEval = .Number za ra) (htb : typ bEval = .Number zb rb) :
    evaluate_step fuel ctx (.Quotient a b) =
      some (if zb = czero then .error (.DivisionByZero (.Quotient a b) a b)
        else .ok (.Complex (za.div zb) (ra.merge rb))) := by
  have hstep := step_mkBin fuel ctx .quot a b
  simp only [mkBin] at hstep
  rw [hstep, ha, hb]
  simp only [binCombine]
  rw [step_binary_num .quot a b aEval bEval za ra zb rb hta htb rfl]
  simp only [numericBinary, mkBin]

/-- The Remainder step on two Number operands: division-by-zero error on an
exactly zero divisor, truncated-division remainder otherwise. -/
lemma remainder_step_core (fuel : Nat) (ctx : List (String × Expression))
    (a b aEval bEval : Expression)
    (za : CplxQ) (ra : RationalRepresentation)
    (zb : CplxQ) (rb : RationalRepresentation)
    (ha : evaluate_step fuel ctx a = some (.ok aEval))
    (hb : evaluate_step fuel ctx b = some (.ok bEval))
    (hta : typ aEval = .Number za ra) (htb : typ bEval = .Number zb rb) :
    evaluate_step fuel ctx (.Remainder a b) =
      some (if zb = czero then .error (.DivisionByZero (.Remainder a b) a b)
        else .ok (.Complex (za.rem zb) (ra.merge rb))) := by
  have hstep := step_mkBin fuel ctx .rem a b
  simp only [mkBin] at hstep
  rw [hstep, ha, hb]
  simp only [binCombine]
  rw [step_binary_num .rem a b aEval bEval za ra zb rb hta htb rfl]
  simp only [numericBinary, mkBin]

/-- C1: for every binary Power step where both operands resolve to Numbers
and they are not both zero, if the exponent is convertible exactly to a
machine-width (32-bit) signed integer then the result is the base raised to
that integer power (negative exponents giving an exact reciprocal power,
hints merged); otherwise the operator is not evaluated and the result is a
rebuilt Power node over the two stepped operands, with no error. -/
theorem power_step_int_exponent_or_deferred (fuel : Nat)
    (ctx : List (String × Expression)) (a b aEval bEval : Expression)
    (za : CplxQ) (ra : RationalRepresentation)
    (zb : CplxQ) (rb : RationalRepresentation)
    (ha : evaluate_step fuel ctx a = some (.ok aEval))
    (hb : evaluate_step fuel ctx b = some (.ok bEval))
    (hta : typ aEval = .Number za ra) (htb : typ bEval = .Number zb rb)
    (hnz : ¬ (za = czero ∧ zb = czero)) :
    evaluate_step fuel ctx (.Power a b) =
      some (match zb.toI32 with
        | some n => .ok (.Complex (za.powi n) (ra.merge rb))
        | none => .ok (.Power aEval bEval)) :=
  power_step_core fuel ctx a b aEval bEval za ra zb rb ha hb hta htb hnz

/-- Witness for C1 at the concrete input 2 ^ (-3): the exponent converts to
the machine integer -3 and the result is the exact reciprocal power 1/8. -/
theorem power_step_int_exponent_or_deferred_witness :
    evaluate_step 0 [] (.Power (.Integer 2) (.Integer (-3))) =
      some (.ok (.Complex ⟨mkRat 1 8, 0⟩ .Fraction)) := by
  have h := power_step_int_exponent_or_deferred 0 [] (.Integer 2) (.Integer (-3))
    (.Integer 2) (.Integer (-3)) ⟨2, 0⟩ .Fraction ⟨-3, 0⟩ .Fraction
    (by decide) (by decide) (by decide) (by decide) (by decide)
  rw [h]
  decide

/-- C4: every Remainder step on two Number operands with nonzero divisor
yields the truncated-division remainder, the value minus the divisor times
the componentwise truncation toward zero of the exact quotient; in
particular the evaluations of 5 mod 2, (-5) mod 2, (-5) mod (-2) and
0.75 mod (1/3) yield 1, -1, -1 and 1/12. -/
theorem remainder_truncated_division :
    (∀ (fuel : Nat) (ctx : List (String × Expression)) (a b aEval bEval : Expression)
        (za : CplxQ) (ra : RationalRepresentation)
        (zb : CplxQ) (rb : RationalRepresentation),
      evaluate_step fuel ctx a = some (.ok aEval) →
      evaluate_step fuel ctx b = some (.ok bEval) →
      typ aEval = .Number za ra → typ bEval = .Number zb rb → ¬ zb = czero →
      evaluate_step fuel ctx (.Remainder a b) =
        some (.ok (.Complex
          (za.sub (zb.mul ⟨(ratTrunc (za.div zb).re : Int), (ratTrunc (za.div zb).im : Int)⟩))
          (ra.merge rb)))) ∧
    evaluate 10 0 [] (.Remainder (.Integer 5) (.Integer 2)) = some (.ok (.Integer 1)) ∧
    evaluate 10 0 [] (.Remainder (.Integer (-5)) (.Integer 2)) = some (.ok (.Integer (-1))) ∧
    evaluate 10 0 [] (.Remainder (.Integer (-5)) (.Integer (-2))) = some (.ok (.Integer (-1))) ∧
    evaluate 10 0 []
        (.Remainder (.Rational (mkRat 3 4) .Decimal) (.Quotient (.Integer 1) (.Integer 3))) =
      some (.ok (.Rational (mkRat 1 12) .Decimal)) := by
  refine ⟨?_, by decide, by decide, by decide, by decide⟩
  intro fuel ctx a b aEval bEval za ra zb rb ha hb hta htb hnz
  have h := remainder_step_core fuel ctx a b aEval bEval za ra zb rb ha hb hta htb
  rw [h, if_neg hnz]
  rfl

/-- Witness for C4 at the concrete input 7 mod 3: the step yields the
truncated remainder 1. -/
theorem remainder_truncated_division_witness :
    evaluate_step 0 [] (.Remainder (.Integer 7) (.Integer 3)) =
      some (.ok (.Complex ⟨1, 0⟩ .Fraction)) := by
  have h := remainder_truncated_division.1 0 [] (.Integer 7) (.Integer 3)
    (.Integer 7) (.Integer 3) ⟨7, 0⟩ .Fraction ⟨3, 0⟩ .Fraction
    (by decide) (by decide) (by decide) (by decide) (by decide)
  rw [h]
  decide

/-- C5: every Quotient or Remainder step on two Number operands fails with
DivisionByZero naming the whole expression and the original unstepped
dividend and divisor exactly when the divisor is exactly zero; with a
nonzero divisor it returns a value, never a DivisionByZero error. -/
theorem division_by_zero_iff_zero_divisor (fuel : Nat)
    (ctx : List (String × Expression)) (a b aEval bEval : Expression)
    (za : CplxQ) (ra : RationalRepresentation)
    (zb : CplxQ) (rb : RationalRepresentation)
    (ha : evaluate_step fuel ctx a = some (.ok aEval))
    (hb : evaluate_step fuel ctx b = some (.ok bEval))
    (hta : typ aEval = .Number za ra) (htb : typ bEval = .Number zb rb) :
    (evaluate_step fuel ctx (.Quotient a b) =
      some (if zb = czero then .error (.DivisionByZero (.Quotient a b) a b)
        else .ok (.Complex (za.div zb) (ra.merge rb)))) ∧
    (evaluate_step fuel ctx (.Remainder a b) =
      some (if zb = czero then .error (.DivisionByZero (.Remainder a b) a b)
        else .ok (.Complex (za.rem zb) (ra.merge rb)))) :=
  ⟨quotient_step_core fuel ctx a b aEval bEval za ra zb rb ha hb hta htb,
   remainder_step_core fuel ctx a b aEval bEval za ra zb rb ha hb hta htb⟩

/-- Witness for C5: the quotient 1 / 0 fails with DivisionByZero naming the
original operands, and the quotient 1 / 2 returns a value. -/
theorem division_by_zero_iff_zero_divisor_witness :
    evaluate_step 0 [] (.Quotient (.Integer 1) (.Integer 0)) =
      some (.error (.DivisionByZero (.Quotient (.Integer 1) (.Integer 0))
        (.Integer 1) (.Integer 0))) ∧
    evaluate_step 0 [] (.Quotient (.Integer 1) (.Integer 2)) =
      some (.ok (.Complex ⟨mkRat 1 2, 0⟩ .Fraction)) := by
  constructor
  · have h := (division_by_zero_iff_zero_divisor 0 [] (.Integer 1) (.Integer 0)
      (.Integer 1) (.Integer 0) ⟨1, 0⟩ .Fraction ⟨0, 0⟩ .Fraction
      (by decide) (by decide) (by decide) (by decide)).1
    rw [h]
    decide
  · have h := (division_by_zero_iff_zero_divisor 0 [] (.Integer 1) (.Integer 2)
      (.Integer 1) (.Integer 2) ⟨1, 0⟩ .Fraction ⟨2, 0⟩ .Fraction
      (by decide) (by decide) (by decide) (by decide)).1
    rw [h]
    decide

/-- C6: every Power step on two Number operands whose base and exponent are
both exactly zero fails with ZeroToThePowerOfZero naming the whole
expression and the original base and exponent; in particular evaluating
0 ^ 0 fails with this error. -/
theorem zero_to_the_power_of_zero_error :
    (∀ (fuel : Nat) (ctx : List (String × Expression)) (a b aEval bEval : Expression)
        (ra rb : RationalRepresentation),
      evaluate_step fuel ctx a = some (.ok aEval) →
      evaluate_step fuel ctx b = some (.ok bEval) →
      typ aEval = .Number czero ra → typ bEval = .Number czero rb →
      evaluate_step fuel ctx (.Power a b) =
        some (.error (.ZeroToThePowerOfZero (.Power a b) a b))) ∧
    evaluate 1 0 [] (.Power (.Integer 0) (.Integer 0)) =
      some (.error (.ZeroToThePowerOfZero (.Power (.Integer 0) (.Integer 0))
        (.Integer 0) (.Integer 0))) := by
  refine ⟨?_, by decide⟩
  intro fuel ctx a b aEval bEval ra rb ha hb hta htb
  have hstep := step_mkBin fuel ctx .pow a b
  simp only [mkBin] at hstep
  rw [hstep, ha, hb]
  simp only [binCombine]
  rw [step_binary_num .pow a b aEval bEval czero ra czero rb hta htb rfl]
  simp [numericBinary, mkBin]

/-- Witness for C6 at the concrete step input 0 ^ 0. -/
theorem zero_to_the_power_of_zero_error_witness :
    evaluate_step 0 [] (.Power (.Integer 0) (.Integer 0)) =
      some (.error (.ZeroToThePowerOfZero (.Power (.Integer 0) (.Integer 0))
        (.Integer 0) (.Integer 0))) :=
  zero_to_the_power_of_zero_error.1 0 [] (.Integer 0) (.Integer 0)
    (.Integer 0) (.Integer 0) .Fraction .Fraction
    (by decide) (by decide) (by decide) (by decide)

/-- C7: for every binary step in which the operator is invalid for both
stepped operands' type tags (per the single-operand invalidity table of the
first two match arms), the resulting InvalidOperand error names the left
operand in its original unstepped form. -/
theorem invalid_for_both_names_left_operand (fuel : Nat)
    (ctx : List (String × Expression)) (op : BinOp) (a b aEval bEval : Expression)
    (ha : evaluate_step fuel ctx a = some (.ok aEval))
    (hb : evaluate_step fuel ctx b = some (.ok bEval))
    (hia : binInvalid op (typ aEval) = true)
    (hib : binInvalid op (typ bEval) = true) :
    evaluate_step fuel ctx (mkBin op a b) =
      some (.error (.InvalidOperand (mkBin op a b) a)) := by
  rw [step_mkBin fuel ctx op a b, ha, hb]
  simp [binCombine, evaluate_step_binary, hia]

/-- Witness for C7: a Sum of two Booleans (invalid on both sides) reports
the left operand. -/
theorem invalid_for_both_names_left_operand_witness :
    evaluate_step 0 [] (.Sum (.Boolean true) (.Boolean false)) =
      some (.error (.InvalidOperand (.Sum (.Boolean true) (.Boolean false))
        (.Boolean true))) := by
  have h := invalid_for_both_names_left_operand 0 [] .sum
    (.Boolean true) (.Boolean false) (.Boolean true) (.Boolean false)
    (by decide) (by decide) (by decide) (by decide)
  exact h.trans (by decide)

/-- C8: every ordering step on two Number operands fails with
InvalidOperand naming the left operand if its imaginary part is nonzero,
else the right operand if its imaginary part is nonzero, and otherwise
returns the boolean given by exact comparison of the two real parts. -/
theorem ordering_on_complex_invalid (fuel : Nat)
    (ctx : List (String × Expression)) (op : BinOp) (a b aEval bEval : Expression)
    (za : CplxQ) (ra : RationalRepresentation)
    (zb : CplxQ) (rb : RationalRepresentation)
    (hop : op.isOrderOp = true)
    (ha : evaluate_step fuel ctx a = some (.ok aEval))
    (hb : evaluate_step fuel ctx b = some (.ok bEval))
    (hta : typ aEval = .Number za ra) (htb : typ bEval = .Number zb rb) :
    evaluate_step fuel ctx (mkBin op a b) =
      some (if ¬ za.im = 0 then .error (.InvalidOperand (mkBin op a b) a)
        else if ¬ zb.im = 0 then .error (.InvalidOperand (mkBin op a b) b)
        else .ok (.Boolean (orderCompare op za.re zb.re))) := by
  have hlog : op.isLogicOp = false := by
    cases op <;> simp_all [BinOp.isOrderOp, BinOp.isLogicOp]
  rw [step_mkBin fuel ctx op a b, ha, hb]
  simp only [binCombine]
  rw [step_binary_num op a b aEval bEval za ra zb rb hta htb hlog]
  cases op <;>
    first
      | exact absurd hop (by decide)
      | simp only [numericBinary, mkBin, orderCompare]

/-- Witness for C8: comparing the imaginary unit against 1 with the
less-than operator fails with InvalidOperand naming the left operand. -/
theorem ordering_on_complex_invalid_witness :
    evaluate_step 0 [] (.LessThan (.Complex ⟨0, 1⟩ .Fraction) (.Integer 1)) =
      some (.error (.InvalidOperand
        (.LessThan (.Complex ⟨0, 1⟩ .Fraction) (.Integer 1))
        (.Complex ⟨0, 1⟩ .Fraction))) := by
  have h := ordering_on_complex_invalid 0 [] .lt
    (.Complex ⟨0, 1⟩ .Fraction) (.Integer 1)
    (.Complex ⟨0, 1⟩ .Fraction) (.Integer 1)
    ⟨0, 1⟩ .Fraction ⟨1, 0⟩ .Fraction
    (by decide) (by decide) (by decide) (by decide) (by decide)
  exact h.trans (by decide)

/-- C10: a Power step on two Number operands, not both zero, whose exponent
has zero imaginary part and is an exact integer outside the 32-bit signed
range, does not compute the power: it returns a rebuilt Power node over the
two stepped operands. -/
theorem power_out_of_range_integer_deferred (fuel : Nat)
    (ctx : List (String × Expression)) (a b aEval bEval : Expression)
    (za : CplxQ) (ra : RationalRepresentation)
    (zb : CplxQ) (rb : RationalRepresentation)
    (ha : evaluate_step fuel ctx a = some (.ok aEval))
    (hb : evaluate_step fuel ctx b = some (.ok bEval))
    (hta : typ aEval = .Number za ra) (htb : typ bEval = .Number zb rb)
    (hnz : ¬ (za = czero ∧ zb = czero))
    (him : zb.im = 0) (hden : zb.re.den = 1)
    (hbig : zb.re.num < -2147483648 ∨ 2147483647 < zb.re.num) :
    evaluate_step fuel ctx (.Power a b) = some (.ok (.Power aEval bEval)) := by
  have h := power_step_core fuel ctx a b aEval bEval za ra zb rb ha hb hta htb hnz
  have htoi : zb.toI32 = none := by
    unfold CplxQ.toI32
    rw [if_neg]
    rintro ⟨h1, h2, h3, h4⟩
    rcases hbig with hb1 | hb1 <;> omega
  rw [h, htoi]

/-- Witness for C10: the exponent 2147483648 is one past the 32-bit range,
so 2 ^ 2147483648 is deferred as a rebuilt Power node. -/
theorem power_out_of_range_integer_deferred_witness :
    evaluate_step 0 [] (.Power (.Integer 2) (.Integer 2147483648)) =
      some (.ok (.Power (.Integer 2) (.Integer 2147483648))) :=
  power_out_of_range_integer_deferred 0 [] (.Integer 2) (.Integer 2147483648)
    (.Integer 2) (.Integer 2147483648) ⟨2, 0⟩ .Fraction ⟨2147483648, 0⟩ .Fraction
    (by decide) (by decide) (by decide) (by decide) (by decide) (by decide)
    (by decide) (Or.inr (by decide))

/-- Unfolding of an association-list lookup at a cons cell. -/
lemma lookup_cons (k pk : String) (pv : Expression)
    (rest : List (String × Expression)) :
    List.lookup k ((pk, pv) :: rest) =
      if k = pk then some pv else List.lookup k rest := by
  by_cases h : k = pk
  · subst h
    simp [List.lookup]
  · simp [List.lookup, h, beq_eq_false_iff_ne.mpr h]

/-- Looking a key up after filtering out a different key is unchanged. -/
lemma lookup_filter_ne (k k2 : String) (hk : ¬ k = k2)
    (ctx : List (String × Expression)) :
    List.lookup k (ctx.filter (fun p => !(p.1 == k2))) = List.lookup k ctx := by
  induction ctx with
  | nil => rfl
  | cons p rest ih =>
    obtain ⟨pk, pv⟩ := p
    by_cases hp : pk = k2
    · subst hp
      simp [List.filter_cons, lookup_cons, ih, hk]
    · by_cases hkp : k = pk
      · subst hkp
        simp [List.filter_cons, hp, lookup_cons]
      · simp [List.filter_cons, hp, lookup_cons, hkp, ih]

/-- Looking up the key just inserted yields the inserted value. -/
lemma lookup_insert_self (k : String) (v : Expression)
    (ctx : List (String × Expression)) :
    List.lookup k (insertBinding k v ctx) = some v := by
  unfold insertBinding
  rw [lookup_cons, if_pos rfl]

/-- Looking up a different key after an insertion is unchanged. -/
lemma lookup_insert_ne (k k2 : String) (v : Expression)
    (ctx : List (String × Expression)) (h : ¬ k = k2) :
    List.lookup k (insertBinding k2 v ctx) = List.lookup k ctx := by
  unfold insertBinding
  rw [lookup_cons, if_neg h]
  exact lookup_filter_ne k k2 h ctx

/-- Folding insertions of bindings whose keys avoid `k` does not change the
lookup of `k`. -/
lemma lookup_fold_notin (bs : List (String × Expression)) (k : String)
    (hk : ¬ k ∈ bs.map Prod.fst) (init : List (String × Expression)) :
    List.lookup k (bs.foldl (fun ctx p => insertBinding p.1 p.2 ctx) init) =
      List.lookup k init := by
  induction bs generalizing init with
  | nil => rfl
  | cons p rest ih =>
    have hk1 : ¬ k = p.1 := by
      intro hh
      exact hk (by simp [hh])
    have hk2 : ¬ k ∈ rest.map Prod.fst := by
      intro hh
      exact hk (by simp [hh])
    simp only [List.foldl_cons]
    rw [ih hk2, lookup_insert_ne k p.1 p.2 init hk1]

/-- Folding insertions of bindings with pairwise distinct keys makes each
binding visible to lookup. -/
lemma lookup_fold_mem (bs : List (String × Expression))
    (hnd : (bs.map Prod.fst).Nodup) (k : String) (v : Expression)
    (hmem : (k, v) ∈ bs) (init : List (String × Expression)) :
    List.lookup k (bs.foldl (fun ctx p => insertBinding p.1 p.2 ctx) init) =
      some v := by
  induction bs generalizing init with
  | nil => cases hmem
  | cons p rest ih =>
    simp only [List.map_cons, List.nodup_cons] at hnd
    simp only [List.foldl_cons]
    rcases List.mem_cons.mp hmem with heq | hmem2
    · have hp : p = (k, v) := heq.symm
      subst hp
      have hk : ¬ k ∈ rest.map Prod.fst := hnd.1
      rw [lookup_fold_notin rest k hk _, lookup_insert_self]
    · exact ih hnd.2 hmem2 _

/-- C9: evaluation runs under a context mapping `i` to the canonical
Fraction-hinted imaginary unit together with every caller-supplied binding,
the caller's entry winning on the key `i`: every caller binding is visible
to lookup, the built-in `i` is visible exactly when the caller does not
bind `i`, and evaluate runs its fixed-point loop under exactly this
context. -/
theorem context_builtin_i_caller_overrides
    (bindings : List (String × Expression))
    (hnd : (bindings.map Prod.fst).Nodup) :
    (∀ k v, (k, v) ∈ bindings → List.lookup k (buildContext bindings) = some v) ∧
    (¬ "i" ∈ bindings.map Prod.fst →
      List.lookup "i" (buildContext bindings) = some iExpr) ∧
    (∀ lfuel sfuel e, evaluate lfuel sfuel bindings e =
      evalLoop lfuel sfuel (buildContext bindings) e) := by
  refine ⟨?_, ?_, fun _ _ _ => rfl⟩
  · intro k v hmem
    exact lookup_fold_mem bindings hnd k v hmem _
  · intro hni
    unfold buildContext
    rw [lookup_fold_notin bindings "i" hni _, lookup_insert_self]

/-- Witness for C9: a caller binding of `i` overrides the built-in, and
with no caller bindings the built-in imaginary unit is in scope. -/
theorem context_builtin_i_caller_overrides_witness :
    List.lookup "i" (buildContext [("i", .Integer 7)]) = some (.Integer 7) ∧
    List.lookup "i" (buildContext []) = some iExpr := by
  constructor
  · exact (context_builtin_i_caller_overrides [("i", .Integer 7)] (by decide)).1
      "i" (.Integer 7) (by decide)
  · exact (context_builtin_i_caller_overrides [] (by decide)).2.1 (by decide)

/-- A binary core step that returns the untouched original node forces both
stepped operands to coincide with the originals: every value-producing arm
builds a Complex or Boolean node (a different constructor), and every
rebuild arm rebuilds over the stepped operands. -/
lemma step_binary_fix (op : BinOp) (a b aEval bEval : Expression)
    (h : evaluate_step_binary op a b aEval bEval = .ok (mkBin op a b)) :
    aEval = a ∧ bEval = b := by
  cases op <;>
    simp only [evaluate_step_binary, numericBinary] at h <;>
    (repeat' split at h) <;>
    simp_all [mkBin]

/-- A unary core step returning the untouched original node forces the
stepped operand to coincide with the original. -/
lemma step_unary_fix (op : UnOp) (a aEval : Expression)
    (h : evaluate_step_unary op a aEval = .ok (mkUn op a)) : aEval = a := by
  cases op <;>
    simp only [evaluate_step_unary] at h <;>
    (repeat' split at h) <;>
    simp_all [mkUn]

/-- A sequenced binary step that returns the untouched original node forces
both operand steps to succeed with their original operands. -/
lemma binCombine_fix (op : BinOp) (a b : Expression)
    (ra rb : Option (Except Error Expression))
    (h : binCombine op a b ra rb = some (.ok (mkBin op a b))) :
    ra = some (.ok a) ∧ rb = some (.ok b) := by
  cases ra with
  | none => simp [binCombine] at h
  | some x =>
    cases x with
    | error er => simp [binCombine] at h
    | ok aEval =>
      cases rb with
      | none => simp [binCombine] at h
      | some y =>
        cases y with
        | error er => simp [binCombine] at h
        | ok bEval =>
          simp only [binCombine, Option.some.injEq] at h
          obtain ⟨h1, h2⟩ := step_binary_fix op a b aEval bEval h
          subst h1
          subst h2
          exact ⟨rfl, rfl⟩

/-- A sequenced unary step that returns the untouched original node forces
the operand step to succeed with the original operand. -/
lemma unCombine_fix (op : UnOp) (a : Expression)
    (ra : Option (Except Error Expression))
    (h : unCombine op a ra = some (.ok (mkUn op a))) : ra = some (.ok a) := by
  cases ra with
  | none => simp [unCombine] at h
  | some x =>
    cases x with
    | error er => simp [unCombine] at h
    | ok aEval =>
      simp only [unCombine, Option.some.injEq] at h
      have h1 := step_unary_fix op a aEval h
      subst h1
      rfl

/-- Every fixed point of one evaluation step satisfies the demotion
invariant outside Function, Vector and Matrix payloads: an undemoted
Complex or Rational node on the rewritten spine would have been rewritten,
so the step result could not equal the input. -/
theorem go_fix_good : ∀ (e : Expression) (ctx : List (String × Expression))
    (vs : Expression → Option (Except Error Expression)),
    evaluate_step_go ctx vs e = some (.ok e) → goodExpr e = true
  | .Variable ident, ctx, vs, h => by simp [goodExpr]
  | .Function f args, ctx, vs, h => by simp [goodExpr]
  | .Integer n, ctx, vs, h => by simp [goodExpr]
  | .Rational q rep, ctx, vs, h => by
    by_cases hq : q.den = 1
    · simp [evaluate_step_go, hq] at h
    · simp [goodExpr, hq]
  | .Complex z rep, ctx, vs, h => by
    by_cases hz : z.im = 0
    · simp [evaluate_step_go, hz] at h
    · simp [goodExpr, hz]
  | .Vector xs, ctx, vs, h => by simp [goodExpr]
  | .Matrix m, ctx, vs, h => by simp [goodExpr]
  | .Boolean bv, ctx, vs, h => by simp [goodExpr]
  | .Negation a, ctx, vs, h => by
    have hfix := unCombine_fix .neg a (evaluate_step_go ctx vs a) h
    have iha := go_fix_good a ctx vs hfix
    simp [goodExpr, iha]
  | .Not a, ctx, vs, h => by
    have hfix := unCombine_fix .not a (evaluate_step_go ctx vs a) h
    have iha := go_fix_good a ctx vs hfix
    simp [goodExpr, iha]
  | .Sum a b, ctx, vs, h => by
    have hfix := binCombine_fix .sum a b
      (evaluate_step_go ctx vs a) (evaluate_step_go ctx vs b) h
    have iha := go_fix_good a ctx vs hfix.1
    have ihb := go_fix_good b ctx vs hfix.2
    simp [goodExpr, iha, ihb]
  | .Difference a b, ctx, vs, h => by
    have hfix := binCombine_fix .diff a b
      (evaluate_step_go ctx vs a) (evaluate_step_go ctx vs b) h
    have iha := go_fix_good a ctx vs hfix.1
    have ihb := go_fix_good b ctx vs hfix.2
    simp [goodExpr, iha, ihb]
  | .Product a b, ctx, vs, h => by
    have hfix := binCombine_fix .prod a b
      (evaluate_step_go ctx vs a) (evaluate_step_go ctx vs b) h
    have iha := go_fix_good a ctx vs hfix.1
    have ihb := go_fix_good b ctx vs hfix.2
    simp [goodExpr, iha, ihb]
  | .Quotient a b, ctx, vs, h => by
    have hfix := binCombine_fix .quot a b
      (evaluate_step_go ctx vs a) (evaluate_step_go ctx vs b) h
    have iha := go_fix_good a ctx vs hfix.1
    have ihb := go_fix_good b ctx vs hfix.2
    simp [goodExpr, iha, ihb]
  | .Remainder a b, ctx, vs, h => by
    have hfix := binCombine_fix .rem a b
      (evaluate_step_go ctx vs a) (evaluate_step_go ctx vs b) h
    have iha := go_fix_good a ctx vs hfix.1
    have ihb := go_fix_good b ctx vs hfix.2
    simp [goodExpr, iha, ihb]
  | .Power a b, ctx, vs, h => by
    have hfix := binCombine_fix .pow a b
      (evaluate_step_go ctx vs a) (evaluate_step_go ctx vs b) h
    have iha := go_fix_good a ctx vs hfix.1
    have ihb := go_fix_good b ctx vs hfix.2
    simp [goodExpr, iha, ihb]
  | .Equal a b, ctx, vs, h => by
    have hfix := binCombine_fix .eq a b
      (evaluate_step_go ctx vs a) (evaluate_step_go ctx vs b) h
    have iha := go_fix_good a ctx vs hfix.1
    have ihb := go_fix_good b ctx vs hfix.2
    simp [goodExpr, iha, ihb]
  | .NotEqual a b, ctx, vs, h => by
    have hfix := binCombine_fix .ne a b
      (evaluate_step_go ctx vs a) (evaluate_step_go ctx vs b) h
    have iha := go_fix_good a ctx vs hfix.1
    have ihb := go_fix_good b ctx vs hfix.2
    simp [goodExpr, iha, ihb]
  | .LessThan a b, ctx, vs, h => by
    have hfix := binCombine_fix .lt a b
      (evaluate_step_go ctx vs a) (evaluate_step_go ctx vs b) h
    have iha := go_fix_good a ctx vs hfix.1
    have ihb := go_fix_good b ctx vs hfix.2
    simp [goodExpr, iha, ihb]
  | .LessThanOrEqual a b, ctx, vs, h => by
    have hfix := binCombine_fix .le a b
      (evaluate_step_go ctx vs a) (evaluate_step_go ctx vs b) h
    have iha := go_fix_good a ctx vs hfix.1
    have ihb := go_fix_good b ctx vs hfix.2
    simp [goodExpr, iha, ihb]
  | .GreaterThan a b, ctx, vs, h => by
    have hfix := binCombine_fix .gt a b
      (evaluate_step_go ctx vs a) (evaluate_step_go ctx vs b) h
    have iha := go_fix_good a ctx vs hfix.1
    have ihb := go_fix_good b ctx vs hfix.2
    simp [goodExpr, iha, ihb]
  | .GreaterThanOrEqual a b, ctx, vs, h => by
    have hfix := binCombine_fix .ge a b
      (evaluate_step_go ctx vs a) (evaluate_step_go ctx vs b) h
    have iha := go_fix_good a ctx vs hfix.1
    have ihb := go_fix_good b ctx vs hfix.2
    simp [goodExpr, iha, ihb]
  | .And a b, ctx, vs, h => by
    have hfix := binCombine_fix .and a b
      (evaluate_step_go ctx vs a) (evaluate_step_go ctx vs b) h
    have iha := go_fix_good a ctx vs hfix.1
    have ihb := go_fix_good b ctx vs hfix.2
    simp [goodExpr, iha, ihb]
  | .Or a b, ctx, vs, h => by
    have hfix := binCombine_fix .or a b
      (evaluate_step_go ctx vs a) (evaluate_step_go ctx vs b) h
    have iha := go_fix_good a ctx vs hfix.1
    have ihb := go_fix_good b ctx vs hfix.2
    simp [goodExpr, iha, ihb]

/-- Fixed points of one fueled evaluation step satisfy the demotion
invariant on the rewritten spine. -/
lemma step_fix_good (sfuel : Nat) (ctx : List (String × Expression))
    (r : Expression) (h : evaluate_step sfuel ctx r = some (.ok r)) :
    goodExpr r = true := by
  cases sfuel with
  | zero => exact go_fix_good r ctx (fun _ => none) h
  | succ n => exact go_fix_good r ctx (evaluate_step n ctx) h

/-- A successful run of the fixed-point loop returns a fixed point of one
evaluation step. -/
lemma evalLoop_fix (lfuel sfuel : Nat) (ctx : List (String × Expression))
    (e r : Expression) (h : evalLoop lfuel sfuel ctx e = some (.ok r)) :
    evaluate_step sfuel ctx r = some (.ok r) := by
  induction lfuel generalizing e with
  | zero => simp [evalLoop] at h
  | succ n ih =>
    rw [evalLoop] at h
    cases hs : evaluate_step sfuel ctx e with
    | none => rw [hs] at h; simp at h
    | some x =>
      cases x with
      | error er => rw [hs] at h; simp at h
      | ok e2 =>
        rw [hs] at h
        dsimp only at h
        by_cases he : e2 = e
        · rw [if_pos he] at h
          have hr : e2 = r := by simpa using h
          subst hr
          subst he
          exact hs
        · rw [if_neg he] at h
          exact ih e2 h

/-- C2, amended: every non-error result of evaluate satisfies the demotion
invariant on its rewritten spine — it contains no Complex node with zero
imaginary part and no Rational node with denominator one outside the
element lists of Function, Vector and Matrix nodes, which the step driver
returns unchanged. -/
theorem evaluate_result_demoted (lfuel sfuel : Nat)
    (bindings : List (String × Expression)) (e r : Expression)
    (h : evaluate lfuel sfuel bindings e = some (.ok r)) :
    goodExpr r = true :=
  step_fix_good sfuel (buildContext bindings) r
    (evalLoop_fix lfuel sfuel (buildContext bindings) e r h)

/-- Witness for C2: evaluating 1 / 2 returns the Fraction-hinted rational
1/2, which satisfies the demotion invariant. -/
theorem evaluate_result_demoted_witness :
    goodExpr (.Rational (mkRat 1 2) .Fraction) = true :=
  evaluate_result_demoted 10 0 [] (.Quotient (.Integer 1) (.Integer 2))
    (.Rational (mkRat 1 2) .Fraction) (by decide)

/-- Counterexample to C2 as stated: a vector whose element is a Complex
node with zero imaginary part is returned unchanged by evaluate (element
evaluation is an explicit extension point), so the returned expression
does contain a Complex node with zero imaginary part. -/
theorem evaluate_returns_undemoted_inside_vector :
    evaluate 2 0 [] (.Vector (.cons (.Complex ⟨1, 0⟩ .Fraction) .nil)) =
      some (.ok (.Vector (.cons (.Complex ⟨1, 0⟩ .Fraction) .nil))) ∧
    SubExpr (.Complex ⟨1, 0⟩ .Fraction)
      (.Vector (.cons (.Complex ⟨1, 0⟩ .Fraction) .nil)) ∧
    (⟨1, 0⟩ : CplxQ).im = 0 :=
  ⟨by decide, .vector _ _ (.head _ _ _ (.refl _)), rfl⟩

/-- C3: idempotence of the normal form: whenever evaluate returns a
non-error result, evaluating that result again with the same bindings (and
the same fuel) returns it unchanged. -/
theorem evaluate_idempotent (lfuel sfuel : Nat)
    (bindings : List (String × Expression)) (e r : Expression)
    (h : evaluate lfuel sfuel bindings e = some (.ok r)) :
    evaluate lfuel sfuel bindings r = some (.ok r) := by
  have hfix := evalLoop_fix lfuel sfuel (buildContext bindings) e r h
  cases lfuel with
  | zero => simp [evaluate, evalLoop] at h
  | succ n =>
    unfold evaluate
    rw [evalLoop, hfix]
    simp

/-- Witness for C3: 1 + 2 evaluates to 3, and evaluating 3 again returns 3. -/
theorem evaluate_idempotent_witness :
    evaluate 10 0 [] (.Integer 3) = some (.ok (.Integer 3)) :=
  evaluate_idempotent 10 0 [] (.Sum (.Integer 1) (.Integer 2)) (.Integer 3)
    (by decide)

end Savage
